import Mathlib

/-!
Verification of the filtering-and-aggregation pipeline of the Pokédex
dashboard (`app.py`) against its natural-language specification.

The source operates on a pandas `DataFrame` whose rows are Pokémon records.
We embed a row as a `Pokemon` structure.  Numeric stat cells are produced by
`pd.to_numeric(..., errors="coerce")` (app.py line 27), so a cell is either a
number or the missing value `NaN`; we model such a cell as `Option ℚ`
(`none` = `NaN`).  The raw string columns `Tipo` and `País` may also be
missing (`Option String`).  A `DataFrame` is a list of rows in order.

Python/pandas primitives that the source relies on are embedded as
structurally recursive Lean functions so that every definition evaluates
inside the kernel:
* `pySplit c s` is Python's `s.split(c)` for a one-character separator
  (`"".split("/") = [""]`, `"a/".split("/") = ["a", ""]`).
* `pyStrip` is Python's `s.strip()` (trim whitespace at both ends).
* `insSort` is a stable sort; pandas `nlargest` sorts with a stable
  mergesort and keeps first occurrences (`keep="first"`), and any two stable
  sorts with the same comparator compute the same function.
-/

namespace Pokedex

/-- Python `str.split` on a single-character separator, over the character
list: splitting the empty list yields one empty fragment, exactly as
`"".split("/") == [""]` in Python. -/
def splitChar (sep : Char) : List Char → List (List Char)
  | [] => [[]]
  | c :: cs =>
    if c = sep then
      [] :: splitChar sep cs
    else
      match splitChar sep cs with
      | [] => [[c]]
      | h :: t => (c :: h) :: t

/-- Python `s.split(sep)` for a one-character separator `sep`. -/
def pySplit (sep : Char) (s : String) : List String :=
  (splitChar sep s.toList).map String.mk

/-- Python `s.strip()`: remove whitespace from both ends. -/
def pyStrip (s : String) : String :=
  String.mk (((s.toList.dropWhile Char.isWhitespace).reverse.dropWhile
    Char.isWhitespace).reverse)

/-- One row of the loaded table.  The seven stat columns have been passed
through `pd.to_numeric(..., errors="coerce")` (app.py line 27), so each is
`Option ℚ` with `none` standing for `NaN` (failed numeric parse).  `Tipo`
and `País` are raw CSV string cells that may be missing. -/
structure Pokemon where
  id : Int
  nombre : String
  tipo : Option String
  pais : Option String
  total : Option ℚ
  hp : Option ℚ
  ataque : Option ℚ
  defensa : Option ℚ
  spAtk : Option ℚ
  spDef : Option ℚ
  velocidad : Option ℚ
deriving DecidableEq

/-- App.py line 30: `df["Tipos_list"] = df["Tipo"].fillna("").str.split("/")`.
A missing `Tipo` is first replaced by the empty string, then split. -/
def tiposList (p : Pokemon) : List String :=
  pySplit '/' (p.tipo.getD "")

/-- App.py line 46: `paises = sorted([p for p in df["País"].dropna().unique()])`.
The distinct present region values; the source additionally sorts them, which
does not affect membership, the only property the filter consumes. -/
def paises (df : List Pokemon) : List String :=
  (df.filterMap (·.pais)).dedup

/-- App.py line 47:
`tipos_unicos = sorted(set(t for sub in df["Tipo"].dropna().str.split("/") for t in sub))`.
All fragments of present `Tipo` cells split on "/"; again the source sorts,
which does not affect membership. -/
def tipos_unicos (df : List Pokemon) : List String :=
  ((df.filterMap (·.tipo)).flatMap (pySplit '/')).dedup

/-- App.py line 58: `mask_pais = df["País"].isin(sel_paises) if sel_paises else True`.
With an empty selection every row passes; otherwise `isin` tests membership
of the cell, and a missing (`NaN`) cell is never an element of a list of
strings. -/
def mask_pais (sel : List String) (p : Pokemon) : Bool :=
  if sel.isEmpty then true
  else match p.pais with
    | none => false
    | some r => sel.contains r

/-- App.py lines 61-62:
`def tiene_tipo(row_tipos, seleccion): return any(t in seleccion for t in row_tipos) if seleccion else True`. -/
def tiene_tipo (row_tipos : List String) (seleccion : List String) : Bool :=
  if seleccion.isEmpty then true
  else row_tipos.any (fun t => seleccion.contains t)

/-- App.py line 59: `mask_total = df["Total"].between(rango_total[0], rango_total[1])`.
`Series.between` is inclusive on both ends and is `False` on a `NaN` cell. -/
def mask_total (lo hi : ℚ) (p : Pokemon) : Bool :=
  match p.total with
  | none => false
  | some v => decide (lo ≤ v) && decide (v ≤ hi)

/-- App.py lines 64-65: the three boolean masks are conjoined and the rows
where the conjunction holds are kept in order:
`df_f = df[mask_pais & mask_tipo & mask_total]`. -/
def df_filter (df : List Pokemon) (sel_paises sel_tipos : List String)
    (lo hi : ℚ) : List Pokemon :=
  df.filter (fun p =>
    mask_pais sel_paises p && tiene_tipo (tiposList p) sel_tipos &&
      mask_total lo hi p)

/-- The list of present `Total` values of a table, in row order; `NaN` cells
are skipped, as pandas `Series.min`/`Series.max` do (app.py line 52). -/
def totalsOf (df : List Pokemon) : List ℚ :=
  df.filterMap (·.total)

/-- Helper for `idxmax`: scan the rows from position `i` on, returning the
position and value of the first row holding the largest present value of
`f`, or `none` when every cell is missing.  A later row replaces the current
best only on a strictly larger value, which is pandas' first-occurrence
tie-break for `Series.idxmax`. -/
def idxmaxFrom (f : Pokemon → Option ℚ) : Nat → List Pokemon → Option (Nat × ℚ)
  | _, [] => none
  | i, p :: ps =>
    match f p, idxmaxFrom f (i + 1) ps with
    | none, r => r
    | some v, none => some (i, v)
    | some v, some (j, w) => if v < w then some (j, w) else some (i, v)

/-- Pandas `Series.idxmax` (app.py lines 83-86) over the row positions of
the list: position of the first row attaining the maximum present value of
the field `f`; `NaN` cells are skipped (`skipna`). -/
def idxmax (f : Pokemon → Option ℚ) (df : List Pokemon) : Option Nat :=
  (idxmaxFrom f 0 df).map (·.1)

/-- App.py lines 83-91: `idx = df_f[col].idxmax()` followed by the metric
value `df_f.loc[idx, col]` with help text `df_f.loc[idx, "Nombre"]`, for
`col` among `Total`, `Velocidad`, `Ataque` and `Defensa` — the maximum
present value of the column paired with the name of the row attaining it.
When every cell of the column is missing there is no maximum and the
library call raises instead of returning; this fallible outcome is embedded
as `none`. -/
def extremo_metric (f : Pokemon → Option ℚ) (df_f : List Pokemon) :
    Option (ℚ × String) :=
  match idxmax f df_f with
  | none => none
  | some i =>
    match df_f[i]? with
    | none => none
    | some p =>
      match f p with
      | none => none
      | some v => some (v, p.nombre)

/-- App.py lines 83 and 88: the `Máx Total` metric. -/
def max_total_metric (df_f : List Pokemon) : Option (ℚ × String) :=
  extremo_metric (·.total) df_f

/-- App.py lines 84 and 89: the `Máx Velocidad` metric. -/
def max_velocidad_metric (df_f : List Pokemon) : Option (ℚ × String) :=
  extremo_metric (·.velocidad) df_f

/-- App.py lines 85 and 90: the `Máx Ataque` metric. -/
def max_ataque_metric (df_f : List Pokemon) : Option (ℚ × String) :=
  extremo_metric (·.ataque) df_f

/-- App.py lines 86 and 91: the `Máx Defensa` metric. -/
def max_defensa_metric (df_f : List Pokemon) : Option (ℚ × String) :=
  extremo_metric (·.defensa) df_f

/-- Insert `a` into `l` in front of the first element `b` with `le a b`;
the building block of the stable insertion sort `insSort`. -/
def insertSorted (le : α → α → Bool) (a : α) : List α → List α
  | [] => [a]
  | b :: bs => if le a b then a :: b :: bs else b :: insertSorted le a bs

/-- A stable sort.  Pandas sorts the `nlargest` selection with a stable
mergesort and `keep="first"`; all stable sorts with the same comparator
agree, and insertion sort evaluates inside the kernel. -/
def insSort (le : α → α → Bool) : List α → List α
  | [] => []
  | a :: as => insertSorted le a (insSort le as)

/-- Comparator of `nlargest(10, "Total")`: descending `Total`.  The rows it
is applied to all carry a present `Total`, so the `getD 0` default is never
consulted. -/
def totalGeB (a b : Nat × Pokemon) : Bool :=
  decide ((b.2.total.getD 0) ≤ (a.2.total.getD 0))

/-- Pandas `df_f.nlargest(10, "Total")` (app.py line 186) over rows tagged
with their frame index: rows with a `NaN` key are dropped, the rest are
sorted by descending `Total` (stable, first occurrence first), and the first
10 are kept. -/
def nlargestIdx (n : Nat) (dfe : List (Nat × Pokemon)) : List (Nat × Pokemon) :=
  (insSort totalGeB (dfe.filter (fun ip => ip.2.total.isSome))).take n

/-- App.py lines 186-187: `top10 = df_f.nlargest(10, "Total")` and
`resto = df_f[~df_f.index.isin(top10.index)]`.  Rows are tagged with their
index so that `resto` is the index-complement of `top10` inside `df_f`, in
`df_f` order. -/
def top10_resto (df_f : List Pokemon) : List (Nat × Pokemon) × List (Nat × Pokemon) :=
  (nlargestIdx 10 df_f.enum,
   df_f.enum.filter
     (fun ip => !(((nlargestIdx 10 df_f.enum).map (·.1)).contains ip.1)))

/-- Pandas `Series.mean()` with the default `skipna`: the mean of the
present values, `NaN` (here `none`) when no present value exists. -/
def seriesMean (xs : List (Option ℚ)) : Option ℚ :=
  if (xs.filterMap id).isEmpty then none
  else some ((xs.filterMap id).sum / (xs.filterMap id).length)

/-- App.py lines 188-195: the `Promedio_Total` column of the `cmp` frame,
as the triple (Top10, Resto, Global).  An empty group receives the explicit
`float("nan")` marker — the not-available value of the float column —
which this embedding renders as `none`. -/
def cmpMedias (df_f : List Pokemon) : Option ℚ × Option ℚ × Option ℚ :=
  let tr := top10_resto df_f
  ( if tr.1.isEmpty then none else seriesMean (tr.1.map (·.2.total)),
    if tr.2.isEmpty then none else seriesMean (tr.2.map (·.2.total)),
    seriesMean (df_f.map (·.total)) )

/-- App.py lines 149-151:
`tipos_series = df_f["Tipo"].str.split("/").explode().dropna().astype(str).str.strip()`.
A missing `Tipo` stays `NaN` through `str.split` and `explode` and is removed
by `dropna`; a present `Tipo` contributes each of its "/"-fragments in order,
stripped of surrounding whitespace. -/
def tipos_series (df_f : List Pokemon) : List String :=
  (df_f.filterMap (·.tipo)).flatMap (fun s => (pySplit '/' s).map pyStrip)

/-- App.py lines 152-155: `tipos_series.value_counts()` renamed into a
(label, count) table and sorted by count descending.  Each distinct label of
`tipos_series` is paired with its number of occurrences and the pairs are
sorted by descending count (stable sort; `value_counts` already sorts
descending, tie order among equal counts is not consumed downstream). -/
def conteo_tipos (df_f : List Pokemon) : List (String × Nat) :=
  insSort (fun a b => decide (b.2 ≤ a.2))
    ((tipos_series df_f).dedup.map (fun l => (l, (tipos_series df_f).count l)))

/-! Claim-side definitions.  These follow the words of the specification,
not the source, and exist to be compared with the source-side definitions
above. -/

/-- Modelled from the spec (claim C2): a record passes the Filter Engine iff
the region selection is empty or contains the record's region, the category
selection is empty or overlaps the record's `category_list`, and the
record's `Total` lies inside the inclusive range. -/
def PasaSpec (sel_paises sel_tipos : List String) (lo hi : ℚ) (p : Pokemon) : Prop :=
  (sel_paises = [] ∨ ∃ r, p.pais = some r ∧ r ∈ sel_paises) ∧
  (sel_tipos = [] ∨ ∃ t ∈ tiposList p, t ∈ sel_tipos) ∧
  (∃ v, p.total = some v ∧ lo ≤ v ∧ v ≤ hi)

instance decPaisIn (o : Option String) (sel : List String) :
    Decidable (∃ r, o = some r ∧ r ∈ sel) :=
  match o with
  | none => isFalse (by simp)
  | some r => decidable_of_iff (r ∈ sel) (by simp)

instance decTotalIn (o : Option ℚ) (lo hi : ℚ) :
    Decidable (∃ v, o = some v ∧ lo ≤ v ∧ v ≤ hi) :=
  match o with
  | none => isFalse (by simp)
  | some v => decidable_of_iff (lo ≤ v ∧ v ≤ hi) (by simp)

instance decPasaSpec (sel_paises sel_tipos : List String) (lo hi : ℚ)
    (p : Pokemon) : Decidable (PasaSpec sel_paises sel_tipos lo hi p) := by
  unfold PasaSpec
  infer_instance

/-- Modelled from the spec (claim C4): `category_list` as the claim words
it — the tag split on "/" into whitespace-trimmed fragments, with an empty
or missing tag yielding the empty sequence. -/
def specCategoryList (tag : Option String) : List String :=
  if tag.getD "" = "" then []
  else (pySplit '/' (tag.getD "")).map pyStrip

/-! Concrete sample rows used to evaluate the definitions on closed inputs.
Unspecified sub-stats are set to 50. -/

/-- Build a sample row; only the fields the claims exercise vary. -/
def mkPokemon (n : Int) (nm : String) (t pa : Option String)
    (tot vel : Option ℚ) : Pokemon :=
  ⟨n, nm, t, pa, tot, some 50, some 50, some 50, some 50, some 50, vel⟩

/-- Sample row: full record, `Total` 500. -/
def pA : Pokemon := mkPokemon 1 "A" (some "Fuego") (some "Kanto") (some 500) (some 60)

/-- Sample row: full record, `Total` also 500 (tie with `pA`). -/
def pB : Pokemon := mkPokemon 2 "B" (some "Agua") (some "Johto") (some 500) (some 70)

/-- Sample row: full record, `Total` 300. -/
def pC : Pokemon := mkPokemon 3 "C" (some "Planta") (some "Kanto") (some 300) (some 40)

/-- Sample row: full record, `Total` 420. -/
def pD : Pokemon := mkPokemon 4 "D" (some "Agua") (some "Kanto") (some 420) (some 55)

/-- Sample row: full record, `Total` 380. -/
def pE : Pokemon := mkPokemon 5 "E" (some "Fuego") (some "Johto") (some 380) (some 65)

/-- Sample row with a missing region cell. -/
def cSinPais : Pokemon := mkPokemon 6 "SinPais" (some "Agua") none (some 320) (some 30)

/-- Sample row with a missing `Total` cell. -/
def cSinTotal : Pokemon := mkPokemon 7 "SinTotal" (some "Agua") (some "Kanto") none (some 30)

/-- Sample row with a missing `Velocidad` cell. -/
def cSinVel : Pokemon := mkPokemon 8 "SinVel" (some "Agua") (some "Kanto") (some 410) none

/-- Sample row with a missing `Tipo` cell. -/
def cNoTipo : Pokemon := mkPokemon 9 "NoTipo" none (some "Kanto") (some 200) (some 20)

/-- Sample row whose `Tipo` cell is the empty string. -/
def cTipoVacio : Pokemon := mkPokemon 10 "TipoVacio" (some "") (some "Kanto") (some 210) (some 21)

/-- Sample row whose `Tipo` carries whitespace around the separator. -/
def cEspacios : Pokemon := mkPokemon 11 "Espacios" (some "Fire / Flying") (some "Kanto") (some 220) (some 22)

/-- Sample row with the two-label tag "Fire/Flying". -/
def cFF : Pokemon := mkPokemon 12 "FF" (some "Fire/Flying") (some "Kanto") (some 520) (some 90)

/-- Sample row with the single tag "Fire". -/
def cFire : Pokemon := mkPokemon 13 "Fuego" (some "Fire") (some "Kanto") (some 310) (some 45)

/-- The three-row table of the extremum tie-break example. -/
def dfABC : List Pokemon := [pA, pB, pC]

/-- A five-row table, all cells present. -/
def df5 : List Pokemon := [pA, pB, pC, pD, pE]

/-- A two-row table whose first row lacks a region. -/
def dfC1 : List Pokemon := [cSinPais, pA]

/-- The table of the category-count example: "Fire/Flying", "Fire", missing. -/
def dfC8 : List Pokemon := [cFF, cFire, cNoTipo]

/-- A two-row table whose first row lacks a `Velocidad` value. -/
def df6 : List Pokemon := [cSinVel, pB]

/-- A two-row table whose first row lacks a `Total` value. -/
def dfTop : List Pokemon := [cSinTotal, pA]

/-! Helper lemmas about the embedded Python primitives. -/

theorem splitChar_ne_nil (sep : Char) (l : List Char) : splitChar sep l ≠ [] := by
  induction l with
  | nil => simp [splitChar]
  | cons c cs ih =>
    by_cases h : c = sep
    · simp [splitChar, h]
    · simp only [splitChar, if_neg h]
      cases hs : splitChar sep cs <;> simp

theorem pySplit_ne_nil (sep : Char) (s : String) : pySplit sep s ≠ [] := by
  intro h
  rw [pySplit] at h
  exact splitChar_ne_nil sep s.toList (by simpa using h)

theorem contains_eq_decide_mem {α : Type _} [BEq α] [LawfulBEq α]
    (l : List α) (a : α) : l.contains a = decide (a ∈ l) :=
  List.elem_eq_mem a l

/-! Claim C9 and C10: behaviour of the region mask and the total-range mask
on missing cells. -/

/-- C9: whenever the region selection is non-empty, every record of the
filtered subset has a present region — a missing-region record is excluded;
and with the empty selection the region mask passes every record, so a
missing-region record can pass only in that case. -/
theorem region_filter_excludes_missing (df : List Pokemon)
    (selP selT : List String) (lo hi : ℚ) (hne : selP ≠ []) :
    (∀ p ∈ df_filter df selP selT lo hi, p.pais ≠ none) ∧
    (∀ q : Pokemon, mask_pais [] q = true) := by
  constructor
  · intro p hp hnone
    have h := (List.mem_filter.mp hp).2
    simp only [Bool.and_eq_true] at h
    have h1 := h.1.1
    rw [mask_pais, hnone] at h1
    rw [if_neg (by simpa [List.isEmpty_iff] using hne)] at h1
    exact Bool.false_ne_true h1
  · intro q
    simp [mask_pais]

/-- C9 witness: on the concrete two-row table `dfC1` with the non-empty
selection `["Kanto"]`, every filtered record has a present region. -/
theorem region_filter_excludes_missing_witness :
    (["Kanto"] : List String) ≠ [] ∧
    ∀ p ∈ df_filter dfC1 ["Kanto"] [] 0 1000, p.pais ≠ none :=
  ⟨by decide,
   (region_filter_excludes_missing dfC1 ["Kanto"] [] 0 1000 (by decide)).1⟩

/-- C10: a record whose `Total` failed numeric coercion (is missing) never
passes the total-range mask and therefore never appears in a filtered
subset, for any range and any selections. -/
theorem total_filter_excludes_missing (df : List Pokemon)
    (selP selT : List String) (lo hi : ℚ) :
    ∀ p ∈ df_filter df selP selT lo hi, p.total ≠ none := by
  intro p hp hnone
  have h := (List.mem_filter.mp hp).2
  simp only [Bool.and_eq_true] at h
  have h2 := h.2
  rw [mask_total, hnone] at h2
  exact Bool.false_ne_true h2

/-- C10 witness: the record with a missing `Total` is dropped from the
concrete table `dfTop` even though the range spans all present totals, while
the full record `pA` survives and indeed has a present `Total`. -/
theorem total_filter_excludes_missing_witness :
    df_filter dfTop [] [] 0 1000 = [pA] ∧
    pA ∈ df_filter dfTop [] [] 0 1000 ∧ pA.total ≠ none :=
  ⟨by decide, by decide,
   total_filter_excludes_missing dfTop [] [] 0 1000 pA (by decide)⟩

/-! Claim C2: the Filter Engine output is the order-preserving subsequence
of exactly the records satisfying the three claim-side conditions. -/

/-- C2: the filtered table is a subsequence of the input (original relative
order preserved) and equals the filter of the input by the claim-side
predicate `PasaSpec`: region selection empty or containing the record's
region, category selection empty or overlapping the record's
`category_list`, and a present `Total` inside the inclusive range. -/
theorem filter_engine_spec (df : List Pokemon) (selP selT : List String)
    (lo hi : ℚ) :
    List.Sublist (df_filter df selP selT lo hi) df ∧
    df_filter df selP selT lo hi
      = df.filter (fun p => decide (PasaSpec selP selT lo hi p)) := by
  refine ⟨List.filter_sublist _, List.filter_congr ?_⟩
  intro p _
  rw [Bool.eq_iff_iff]
  simp only [Bool.and_eq_true, decide_eq_true_eq]
  rw [PasaSpec, mask_pais, tiene_tipo, mask_total]
  constructor
  · rintro ⟨⟨h1, h2⟩, h3⟩
    refine ⟨?_, ?_, ?_⟩
    · by_cases hs : selP.isEmpty
      · exact Or.inl (by simpa [List.isEmpty_iff] using hs)
      · rw [if_neg hs] at h1
        cases hp : p.pais with
        | none => rw [hp] at h1; exact absurd h1 Bool.false_ne_true
        | some r =>
          rw [hp] at h1
          exact Or.inr ⟨r, rfl, by simpa using h1⟩
    · by_cases hs : selT.isEmpty
      · exact Or.inl (by simpa [List.isEmpty_iff] using hs)
      · rw [if_neg hs] at h2
        obtain ⟨t, ht, htsel⟩ := List.any_eq_true.mp h2
        exact Or.inr ⟨t, ht, by simpa using htsel⟩
    · cases hp : p.total with
      | none => rw [hp] at h3; exact absurd h3 Bool.false_ne_true
      | some v =>
        rw [hp] at h3
        simp only [Bool.and_eq_true, decide_eq_true_eq] at h3
        exact ⟨v, rfl, h3.1, h3.2⟩
  · rintro ⟨h1, h2, v, hv, hlo, hhi⟩
    refine ⟨⟨?_, ?_⟩, ?_⟩
    · rcases h1 with h1 | ⟨r, hr, hrsel⟩
      · simp [h1]
      · by_cases hs : selP.isEmpty
        · rw [if_pos hs]
        · rw [if_neg hs, hr]
          simpa using hrsel
    · rcases h2 with h2 | ⟨t, ht, htsel⟩
      · simp [h2]
      · by_cases hs : selT.isEmpty
        · rw [if_pos hs]
        · rw [if_neg hs]
          exact List.any_eq_true.mpr ⟨t, ht, by simpa using htsel⟩
    · rw [hv]
      simp [hlo, hhi]

/-- C2 witness: the Filter Engine evaluated on the concrete table `df5` with
a category selection that overlaps (but does not contain) the two-label
records agrees with the claim-side predicate. -/
theorem filter_engine_spec_witness :
    List.Sublist (df_filter df5 [] ["Agua", "Fuego"] 0 1000) df5 ∧
    df_filter df5 [] ["Agua", "Fuego"] 0 1000
      = df5.filter (fun p => decide (PasaSpec [] ["Agua", "Fuego"] 0 1000 p)) :=
  filter_engine_spec df5 [] ["Agua", "Fuego"] 0 1000

/-! Claim C4: the derived `category_list` against its specified form. -/

/-- C4 counterexample: the source keeps fragments verbatim and maps a
missing tag to the one-element list containing the empty string: on the
concrete records `cNoTipo` (missing tag) and `cEspacios`
(tag "Fire / Flying") the derived `Tipos_list` differs from the claimed
trimmed/empty form. -/
theorem categoryList_claim_fails :
    tiposList cNoTipo = [""] ∧ specCategoryList cNoTipo.tipo = [] ∧
    tiposList cNoTipo ≠ specCategoryList cNoTipo.tipo ∧
    tiposList cEspacios = ["Fire ", " Flying"] ∧
    specCategoryList cEspacios.tipo = ["Fire", "Flying"] ∧
    tiposList cEspacios ≠ specCategoryList cEspacios.tipo := by decide

/-- C4 (amended): `category_list` is the `category_tag` split on "/" with
fragments kept verbatim (no trimming), a missing tag being treated as the
empty string first; it is never empty, and an empty or missing tag yields
the one-element list containing the empty string. -/
theorem categoryList_amended (p : Pokemon) :
    (p.tipo = none ∨ p.tipo = some "" → tiposList p = [""]) ∧
    (∀ s, p.tipo = some s → tiposList p = pySplit '/' s) ∧
    tiposList p ≠ [] := by
  refine ⟨?_, ?_, ?_⟩
  · rintro (h | h) <;> rw [tiposList, h] <;> rfl
  · intro s h
    rw [tiposList, h]
    rfl
  · rw [tiposList]
    exact pySplit_ne_nil _ _

/-- C4 witness: the amended statement evaluated at the missing-tag record
and at a present two-label record. -/
theorem categoryList_amended_witness :
    tiposList cNoTipo = [""] ∧ tiposList cFF = pySplit '/' "Fire/Flying" ∧
    tiposList cFF ≠ [] :=
  ⟨(categoryList_amended cNoTipo).1 (Or.inl rfl),
   (categoryList_amended cFF).2.1 "Fire/Flying" rfl,
   (categoryList_amended cFF).2.2⟩

/-! Helper lemmas: `List.min?`/`List.max?` bound every member. -/

theorem foldl_min_le_init (l : List ℚ) : ∀ a : ℚ, l.foldl min a ≤ a := by
  induction l with
  | nil => intro a; simp
  | cons b bs ih =>
    intro a
    calc (b :: bs).foldl min a = bs.foldl min (min a b) := rfl
    _ ≤ min a b := ih _
    _ ≤ a := min_le_left _ _

theorem foldl_min_le_mem (l : List ℚ) :
    ∀ t ∈ l, ∀ a : ℚ, l.foldl min a ≤ t := by
  induction l with
  | nil => intro t ht; cases ht
  | cons b bs ih =>
    intro t ht a
    rcases List.mem_cons.mp ht with rfl | hmem
    · calc (t :: bs).foldl min a = bs.foldl min (min a t) := rfl
      _ ≤ min a t := foldl_min_le_init _ _
      _ ≤ t := min_le_right _ _
    · exact ih t hmem _

theorem rat_min?_le {l : List ℚ} {m : ℚ} (h : l.min? = some m) :
    ∀ t ∈ l, m ≤ t := by
  cases l with
  | nil => cases h
  | cons x xs =>
    rw [List.min?_cons'] at h
    have hm : xs.foldl min x = m := by injection h
    intro t ht
    rcases List.mem_cons.mp ht with rfl | hmem
    · rw [← hm]; exact foldl_min_le_init xs t
    · rw [← hm]; exact foldl_min_le_mem xs t hmem x

theorem foldl_max_ge_init (l : List ℚ) : ∀ a : ℚ, a ≤ l.foldl max a := by
  induction l with
  | nil => intro a; simp
  | cons b bs ih =>
    intro a
    calc a ≤ max a b := le_max_left _ _
    _ ≤ bs.foldl max (max a b) := ih _
    _ = (b :: bs).foldl max a := rfl

theorem foldl_max_ge_mem (l : List ℚ) :
    ∀ t ∈ l, ∀ a : ℚ, t ≤ l.foldl max a := by
  induction l with
  | nil => intro t ht; cases ht
  | cons b bs ih =>
    intro t ht a
    rcases List.mem_cons.mp ht with rfl | hmem
    · calc t ≤ max a t := le_max_right _ _
      _ ≤ bs.foldl max (max a t) := foldl_max_ge_init _ _
      _ = (t :: bs).foldl max a := rfl
    · exact ih t hmem _

theorem rat_max?_ge {l : List ℚ} {m : ℚ} (h : l.max? = some m) :
    ∀ t ∈ l, t ≤ m := by
  cases l with
  | nil => cases h
  | cons x xs =>
    rw [List.max?_cons'] at h
    have hm : xs.foldl max x = m := by injection h
    intro t ht
    rcases List.mem_cons.mp ht with rfl | hmem
    · rw [← hm]; exact foldl_max_ge_init xs t
    · rw [← hm]; exact foldl_max_ge_mem xs t hmem x

/-! Claim C1: the full-filters round trip. -/

/-- C1 counterexample: on the concrete table `dfC1`, whose first row has a
missing region, filtering with the full present-region set, the full
category set and the full `[min Total, max Total]` range drops that row, so
the round trip does not reproduce the table. -/
theorem roundtrip_claim_fails :
    (totalsOf dfC1).min? = some 320 ∧ (totalsOf dfC1).max? = some 500 ∧
    df_filter dfC1 (paises dfC1) (tipos_unicos dfC1) 320 500 = [pA] ∧
    df_filter dfC1 (paises dfC1) (tipos_unicos dfC1) 320 500 ≠ dfC1 := by
  decide

/-- C1 (amended): for every table in which every record's region, category
tag and `Total` are present, filtering with the full present-region set, the
full present-category set and the range `[min Total, max Total]` returns the
original table row-for-row. -/
theorem roundtrip_full_filters (df : List Pokemon) (lo hi : ℚ)
    (hall : ∀ p ∈ df, p.pais.isSome ∧ p.tipo.isSome ∧ p.total.isSome)
    (hlo : (totalsOf df).min? = some lo)
    (hhi : (totalsOf df).max? = some hi) :
    df_filter df (paises df) (tipos_unicos df) lo hi = df := by
  rw [df_filter, List.filter_eq_self]
  intro p hp
  obtain ⟨hpais, htipo, htot⟩ := hall p hp
  obtain ⟨r, hr⟩ := Option.isSome_iff_exists.mp hpais
  obtain ⟨s, hs⟩ := Option.isSome_iff_exists.mp htipo
  obtain ⟨v, hv⟩ := Option.isSome_iff_exists.mp htot
  simp only [Bool.and_eq_true]
  refine ⟨⟨?_, ?_⟩, ?_⟩
  · rw [mask_pais]
    by_cases he : (paises df).isEmpty
    · rw [if_pos he]
    · rw [if_neg he, hr]
      have hm : r ∈ paises df :=
        List.mem_dedup.mpr (List.mem_filterMap.mpr ⟨p, hp, hr⟩)
      simpa using hm
  · rw [tiene_tipo]
    by_cases he : (tipos_unicos df).isEmpty
    · rw [if_pos he]
    · rw [if_neg he]
      have hlist : tiposList p = pySplit '/' s := by rw [tiposList, hs]; rfl
      obtain ⟨t₀, ht₀⟩ : ∃ t₀, t₀ ∈ pySplit '/' s := by
        cases hq : pySplit '/' s with
        | nil => exact absurd hq (pySplit_ne_nil _ _)
        | cons a l => exact ⟨a, hq ▸ List.mem_cons_self a l⟩
      have htu : t₀ ∈ tipos_unicos df :=
        List.mem_dedup.mpr
          (List.mem_flatMap.mpr ⟨s, List.mem_filterMap.mpr ⟨p, hp, hs⟩, ht₀⟩)
      apply List.any_eq_true.mpr
      refine ⟨t₀, ?_, by simpa using htu⟩
      rw [hlist]; exact ht₀
  · rw [mask_total, hv]
    have hvmem : v ∈ totalsOf df := List.mem_filterMap.mpr ⟨p, hp, hv⟩
    have h1 := rat_min?_le hlo v hvmem
    have h2 := rat_max?_ge hhi v hvmem
    simp [h1, h2]

/-- C1 witness: the five-row fully-present table `df5` really round-trips
through the full filters. -/
theorem roundtrip_full_filters_witness :
    (∀ p ∈ df5, p.pais.isSome ∧ p.tipo.isSome ∧ p.total.isSome) ∧
    (totalsOf df5).min? = some 300 ∧ (totalsOf df5).max? = some 500 ∧
    df_filter df5 (paises df5) (tipos_unicos df5) 300 500 = df5 :=
  ⟨by decide, by decide, by decide,
   roundtrip_full_filters df5 300 500 (by decide) (by decide) (by decide)⟩

/-! Helper lemmas about the stable insertion sort. -/

theorem insertSorted_perm (le : α → α → Bool) (a : α) (l : List α) :
    (insertSorted le a l).Perm (a :: l) := by
  induction l with
  | nil => exact List.Perm.refl _
  | cons b bs ih =>
    rw [insertSorted]
    by_cases h : le a b
    · rw [if_pos h]
    · rw [if_neg h]
      exact (ih.cons b).trans (List.Perm.swap a b bs)

theorem insSort_perm (le : α → α → Bool) (l : List α) : (insSort le l).Perm l := by
  induction l with
  | nil => exact List.Perm.refl _
  | cons a as ih =>
    rw [insSort]
    exact (insertSorted_perm le a (insSort le as)).trans (ih.cons a)

theorem mem_insertSorted {le : α → α → Bool} {a x : α} {l : List α} :
    x ∈ insertSorted le a l ↔ x = a ∨ x ∈ l := by
  rw [(insertSorted_perm le a l).mem_iff]
  exact List.mem_cons

theorem pairwise_insertSorted {le : α → α → Bool}
    (htr : ∀ a b c, le a b = true → le b c = true → le a c = true)
    (hto : ∀ a b, le a b = true ∨ le b a = true)
    (a : α) (l : List α) (h : l.Pairwise (fun x y => le x y = true)) :
    (insertSorted le a l).Pairwise (fun x y => le x y = true) := by
  induction l with
  | nil => simp [insertSorted]
  | cons b bs ih =>
    rw [List.pairwise_cons] at h
    obtain ⟨hb, hbs⟩ := h
    rw [insertSorted]
    by_cases hab : le a b
    · rw [if_pos hab]
      refine List.Pairwise.cons ?_ (List.Pairwise.cons hb hbs)
      intro x hx
      rcases List.mem_cons.mp hx with rfl | hmem
      · exact hab
      · exact htr a b x hab (hb x hmem)
    · rw [if_neg hab]
      refine List.Pairwise.cons ?_ (ih hbs)
      intro x hx
      rcases mem_insertSorted.mp hx with rfl | hmem
      · rcases hto x b with h1 | h1
        · exact absurd h1 hab
        · exact h1
      · exact hb x hmem

theorem pairwise_insSort {le : α → α → Bool}
    (htr : ∀ a b c, le a b = true → le b c = true → le a c = true)
    (hto : ∀ a b, le a b = true ∨ le b a = true)
    (l : List α) :
    (insSort le l).Pairwise (fun x y => le x y = true) := by
  induction l with
  | nil => simp [insSort]
  | cons a as ih =>
    rw [insSort]
    exact pairwise_insertSorted htr hto a _ ih

/-! Helper lemmas about `idxmaxFrom`. -/

theorem idxmaxFrom_eq_none (f : Pokemon → Option ℚ) :
    ∀ (l : List Pokemon) (i : Nat),
      idxmaxFrom f i l = none → ∀ p ∈ l, f p = none := by
  intro l
  induction l with
  | nil => intro i _ p hp; cases hp
  | cons q qs ih =>
    intro i h p hp
    rw [idxmaxFrom] at h
    cases hq : f q with
    | none =>
      rw [hq] at h
      rcases List.mem_cons.mp hp with rfl | hmem
      · exact hq
      · exact ih (i + 1) h p hmem
    | some v =>
      rw [hq] at h
      cases hr : idxmaxFrom f (i + 1) qs with
      | none => rw [hr] at h; cases h
      | some jw =>
        obtain ⟨j, w⟩ := jw
        rw [hr] at h
        have h' : (if v < w then some (j, w) else some (i, v))
            = (none : Option (Nat × ℚ)) := h
        by_cases hlt : v < w
        · rw [if_pos hlt] at h'; cases h'
        · rw [if_neg hlt] at h'; cases h'

theorem idxmaxFrom_spec (f : Pokemon → Option ℚ) :
    ∀ (l : List Pokemon) (i j : Nat) (v : ℚ),
      idxmaxFrom f i l = some (j, v) →
      i ≤ j ∧ (∃ p, l[j - i]? = some p ∧ f p = some v) ∧
      (∀ q ∈ l, ∀ w, f q = some w → w ≤ v) ∧
      (∀ k, k < j - i → ∀ q, l[k]? = some q → ∀ w, f q = some w → w < v) := by
  intro l
  induction l with
  | nil => intro i j v h; cases h
  | cons p ps ih =>
    intro i j v h
    rw [idxmaxFrom] at h
    cases hp : f p with
    | none =>
      rw [hp] at h
      obtain ⟨hij, ⟨q, hq, hfq⟩, hbound, hfirst⟩ := ih (i + 1) j v h
      have hij' : i ≤ j := Nat.le_of_succ_le hij
      have hsub : j - i = (j - (i + 1)) + 1 := by omega
      refine ⟨hij', ⟨q, ?_, hfq⟩, ?_, ?_⟩
      · rw [hsub]; simpa using hq
      · intro q' hq' w hw
        rcases List.mem_cons.mp hq' with rfl | hmem
        · rw [hp] at hw; cases hw
        · exact hbound q' hmem w hw
      · intro k hk q' hq' w hw
        cases k with
        | zero =>
          have hq'' : p = q' := by simpa using hq'
          subst hq''
          rw [hp] at hw; cases hw
        | succ k' =>
          have hk' : k' < j - (i + 1) := by omega
          exact hfirst k' hk' q' (by simpa using hq') w hw
    | some v0 =>
      rw [hp] at h
      cases hr : idxmaxFrom f (i + 1) ps with
      | none =>
        rw [hr] at h
        have h2 : i = j ∧ v0 = v := by
          have := Option.some.inj h
          exact ⟨congrArg Prod.fst this, congrArg Prod.snd this⟩
        obtain ⟨rfl, rfl⟩ := h2
        have hnone := idxmaxFrom_eq_none f ps (i + 1) hr
        refine ⟨Nat.le_refl _, ⟨p, by simp, hp⟩, ?_, ?_⟩
        · intro q hq w hw
          rcases List.mem_cons.mp hq with rfl | hmem
          · rw [hp] at hw; exact le_of_eq (Option.some.inj hw).symm
          · rw [hnone q hmem] at hw; cases hw
        · intro k hk
          exact absurd hk (by omega)
      | some jw =>
        obtain ⟨j0, w0⟩ := jw
        rw [hr] at h
        have h' : (if v0 < w0 then some (j0, w0) else some (i, v0))
            = some (j, v) := h
        obtain ⟨hij0, ⟨q, hq, hfq⟩, hbound, hfirst⟩ := ih (i + 1) j0 w0 hr
        by_cases hlt : v0 < w0
        · rw [if_pos hlt] at h'
          have h2 : j0 = j ∧ w0 = v := by
            have := Option.some.inj h'
            exact ⟨congrArg Prod.fst this, congrArg Prod.snd this⟩
          obtain ⟨rfl, rfl⟩ := h2
          have hsub : j0 - i = (j0 - (i + 1)) + 1 := by omega
          refine ⟨Nat.le_of_succ_le hij0, ⟨q, ?_, hfq⟩, ?_, ?_⟩
          · rw [hsub]; simpa using hq
          · intro q' hq' w hw
            rcases List.mem_cons.mp hq' with rfl | hmem
            · rw [hp] at hw
              exact le_of_lt (lt_of_eq_of_lt (Option.some.inj hw).symm hlt)
            · exact hbound q' hmem w hw
          · intro k hk q' hq' w hw
            cases k with
            | zero =>
              have hq'' : p = q' := by simpa using hq'
              subst hq''
              rw [hp] at hw
              exact lt_of_eq_of_lt (Option.some.inj hw).symm hlt
            | succ k' =>
              have hk' : k' < j0 - (i + 1) := by omega
              exact hfirst k' hk' q' (by simpa using hq') w hw
        · rw [if_neg hlt] at h'
          have h2 : i = j ∧ v0 = v := by
            have := Option.some.inj h'
            exact ⟨congrArg Prod.fst this, congrArg Prod.snd this⟩
          obtain ⟨rfl, rfl⟩ := h2
          refine ⟨Nat.le_refl _, ⟨p, by simp, hp⟩, ?_, ?_⟩
          · intro q' hq' w hw
            rcases List.mem_cons.mp hq' with rfl | hmem
            · rw [hp] at hw; exact le_of_eq (Option.some.inj hw).symm
            · exact le_trans (hbound q' hmem w hw) (not_lt.mp hlt)
          · intro k hk
            exact absurd hk (by omega)

/-! Claim C7: the extremum-with-label metric, generic over the stat field
of lines 83-91 (`Total`, `Velocidad`, `Ataque`, `Defensa`). -/

/-- C7 counterexample: `[cSinVel]` is a legitimate non-empty filtered subset
(it passes the Filter Engine unchanged), yet the `Máx Velocidad` metric on
it returns no maximum-with-label at all: its only `Velocidad` cell is
missing, `idxmax` has no present value to select, and the source raises
instead of returning — embedded as `none`, not `some` pair. -/
theorem extremo_claim_fails :
    df_filter [cSinVel] [] [] 0 1000 = [cSinVel] ∧
    ([cSinVel] : List Pokemon) ≠ [] ∧
    max_velocidad_metric [cSinVel] = none := by decide

/-- C7 (amended): for every filtered subset and every stat field with at
least one present cell in the subset, the extremum metric returns the
maximum present value of the field together with the name of the first row
attaining it — the row at the `idxmax` position carries the maximum, every
present value is bounded by it, and every earlier row is strictly below it
(missing cells are skipped); a subset whose field column is entirely
missing yields no metric instead of a maximum. -/
theorem extremo_first (f : Pokemon → Option ℚ) (df : List Pokemon)
    (hex : ∃ p ∈ df, (f p).isSome) :
    ∃ i p m, idxmax f df = some i ∧ df[i]? = some p ∧
      f p = some m ∧ extremo_metric f df = some (m, p.nombre) ∧
      (∀ q ∈ df, ∀ w, f q = some w → w ≤ m) ∧
      (∀ k, k < i → ∀ q, df[k]? = some q → ∀ w, f q = some w → w < m) := by
  cases hI : idxmaxFrom f 0 df with
  | none =>
    exfalso
    obtain ⟨p, hp, hps⟩ := hex
    have h0 := idxmaxFrom_eq_none f df 0 hI p hp
    rw [h0] at hps
    cases hps
  | some jv =>
    obtain ⟨j, v⟩ := jv
    obtain ⟨_, ⟨p, hp, hfp⟩, hbound, hfirst⟩ := idxmaxFrom_spec f df 0 j v hI
    have hidx : idxmax f df = some j := by rw [idxmax, hI]; rfl
    have hp' : df[j]? = some p := by simpa using hp
    refine ⟨j, p, v, hidx, hp', hfp, ?_, hbound, ?_⟩
    · simp only [extremo_metric, hidx, hp', hfp]
    · intro k hk q hq w hw
      exact hfirst k (by simpa using hk) q hq w hw

/-- C7 witness: field `Total` on the tie table `dfABC` returns 500 with
label "A" (first-occurrence tie-break), and field `Velocidad` on `df6` —
whose first row has a missing `Velocidad` cell — skips the missing cell and
returns 70 with label "B". -/
theorem extremo_first_witness :
    (∃ p ∈ dfABC, ((fun q : Pokemon => q.total) p).isSome) ∧
    max_total_metric dfABC = some (500, "A") ∧
    (∃ i p m, idxmax (fun q : Pokemon => q.total) dfABC = some i ∧
      dfABC[i]? = some p ∧ (fun q : Pokemon => q.total) p = some m ∧
      extremo_metric (fun q : Pokemon => q.total) dfABC = some (m, p.nombre) ∧
      (∀ q ∈ dfABC, ∀ w, (fun q : Pokemon => q.total) q = some w → w ≤ m) ∧
      (∀ k, k < i → ∀ q, dfABC[k]? = some q →
        ∀ w, (fun q : Pokemon => q.total) q = some w → w < m)) ∧
    (∃ p ∈ df6, ((fun q : Pokemon => q.velocidad) p).isSome) ∧
    max_velocidad_metric df6 = some (70, "B") ∧
    (∃ i p m, idxmax (fun q : Pokemon => q.velocidad) df6 = some i ∧
      df6[i]? = some p ∧ (fun q : Pokemon => q.velocidad) p = some m ∧
      extremo_metric (fun q : Pokemon => q.velocidad) df6
        = some (m, p.nombre) ∧
      (∀ q ∈ df6, ∀ w, (fun q : Pokemon => q.velocidad) q = some w → w ≤ m) ∧
      (∀ k, k < i → ∀ q, df6[k]? = some q →
        ∀ w, (fun q : Pokemon => q.velocidad) q = some w → w < m)) :=
  ⟨by decide, by decide, extremo_first (fun q : Pokemon => q.total) dfABC (by decide),
   by decide, by decide,
   extremo_first (fun q : Pokemon => q.velocidad) df6 (by decide)⟩

/-! Claim C6: missing stat values are absent from extremum and top-N
computations. -/

/-- C6: a row whose stat cell is missing is never the row selected by
`idxmax` on that field (when `idxmax` returns a position the row there has a
present value), and a row with a missing `Total` never occupies a slot of
the `nlargest` top-10; it is treated as absent, not as zero. -/
theorem missing_absent_extremum_topn :
    (∀ (f : Pokemon → Option ℚ) (df : List Pokemon) (i : Nat),
        idxmax f df = some i → ∃ p, df[i]? = some p ∧ (f p).isSome) ∧
    (∀ df : List Pokemon, ∀ ip ∈ (top10_resto df).1, ip.2.total.isSome) := by
  constructor
  · intro f df i h
    rw [idxmax] at h
    cases hI : idxmaxFrom f 0 df with
    | none => rw [hI] at h; cases h
    | some jv =>
      obtain ⟨j, v⟩ := jv
      rw [hI] at h
      have hj : j = i := by simpa using h
      obtain ⟨_, ⟨p, hp, hfp⟩, _, _⟩ := idxmaxFrom_spec f df 0 j v hI
      subst hj
      exact ⟨p, by simpa using hp, by rw [hfp]; rfl⟩
  · intro df ip hip
    have h1 : ip ∈ insSort totalGeB
        (df.enum.filter (fun q => q.2.total.isSome)) :=
      List.mem_of_mem_take hip
    have h2 := (insSort_perm totalGeB _).mem_iff.mp h1
    exact (List.mem_filter.mp h2).2

/-- C6 witness: on `df6` the `Velocidad` extremum skips the missing first
row and lands on position 1, and on `dfTop` the missing-`Total` row takes no
top-10 slot. -/
theorem missing_absent_extremum_topn_witness :
    idxmax (fun p : Pokemon => p.velocidad) df6 = some 1 ∧
    (∃ p, df6[1]? = some p ∧ ((fun p : Pokemon => p.velocidad) p).isSome) ∧
    (top10_resto dfTop).1 = [(1, pA)] ∧
    (∀ ip ∈ (top10_resto dfTop).1, ip.2.total.isSome) :=
  ⟨by decide,
   missing_absent_extremum_topn.1 (fun p : Pokemon => p.velocidad) df6 1
     (by decide),
   by decide,
   fun ip hip => missing_absent_extremum_topn.2 dfTop ip hip⟩

/-! Claim C3: the Top10/Resto/Global comparison. -/

/-- C3: on a non-empty filtered subset (all `Total` cells present), the
comparison partitions the subset — every row belongs to exactly one of
`top10` and `resto` —, the top group is never empty, the global mean is a
present value (no error, no `NaN`), and whenever the subset has at most 10
rows the `resto` group is empty and its mean is the explicit not-available
marker `none`, not zero. -/
theorem top_rest_partition_sentinel (df : List Pokemon) (hne : df ≠ [])
    (hall : ∀ p ∈ df, p.total.isSome) :
    (∀ ip ∈ df.enum,
      (ip ∈ (top10_resto df).1 ∧ ip ∉ (top10_resto df).2) ∨
      (ip ∉ (top10_resto df).1 ∧ ip ∈ (top10_resto df).2)) ∧
    (top10_resto df).1 ≠ [] ∧
    ((cmpMedias df).2.2).isSome ∧
    (df.length ≤ 10 →
      (top10_resto df).2 = [] ∧ (cmpMedias df).2.1 = none ∧
      (cmpMedias df).2.1 ≠ some 0) := by
  have hfilter : df.enum.filter (fun ip => ip.2.total.isSome) = df.enum :=
    List.filter_eq_self.mpr
      (fun ip hip => hall ip.2 (List.snd_mem_of_mem_enumFrom hip))
  have hT : (top10_resto df).1 = (insSort totalGeB df.enum).take 10 := by
    rw [show (top10_resto df).1 = nlargestIdx 10 df.enum from rfl,
      nlargestIdx, hfilter]
  have hsubT : ∀ ip ∈ (top10_resto df).1, ip ∈ df.enum := by
    intro ip hip
    rw [hT] at hip
    exact (insSort_perm totalGeB df.enum).mem_iff.mp (List.mem_of_mem_take hip)
  have hinj : ∀ {i : Nat} {x y : Pokemon},
      (i, x) ∈ df.enum → (i, y) ∈ df.enum → x = y := by
    intro i x y hx hy
    rw [List.mk_mem_enum_iff_getElem?] at hx hy
    exact Option.some.inj (hx.symm.trans hy)
  have hR : (top10_resto df).2 = df.enum.filter
      (fun ip => !(((top10_resto df).1.map (·.1)).contains ip.1)) := rfl
  have hlen : (insSort totalGeB df.enum).length = df.length := by
    rw [(insSort_perm totalGeB df.enum).length_eq, List.enum_length]
  refine ⟨?_, ?_, ?_, ?_⟩
  · rintro ⟨i, x⟩ hip
    by_cases hmem : i ∈ (top10_resto df).1.map (·.1)
    · left
      obtain ⟨iq, hiq, hfst⟩ := List.mem_map.mp hmem
      obtain ⟨i', y⟩ := iq
      have hfst' : i' = i := hfst
      rw [hfst'] at hiq
      have hxy : y = x := hinj (hsubT _ hiq) hip
      rw [hxy] at hiq
      refine ⟨hiq, ?_⟩
      intro hr
      rw [hR] at hr
      have hcond := (List.mem_filter.mp hr).2
      rw [contains_eq_decide_mem] at hcond
      simp [hmem] at hcond
    · right
      refine ⟨?_, ?_⟩
      · intro ht
        exact hmem (List.mem_map.mpr ⟨(i, x), ht, rfl⟩)
      · rw [hR]
        refine List.mem_filter.mpr ⟨hip, ?_⟩
        rw [contains_eq_decide_mem]
        simp [hmem]
  · rw [hT]
    intro h0
    rcases List.take_eq_nil_iff.mp h0 with h1 | h1
    · cases h1
    · have := congrArg List.length h1
      rw [hlen] at this
      exact hne (List.length_eq_zero.mp this)
  · have hcg : (cmpMedias df).2.2 = seriesMean (df.map (·.total)) := rfl
    obtain ⟨p, hp⟩ := List.exists_mem_of_ne_nil df hne
    obtain ⟨t, ht⟩ := Option.isSome_iff_exists.mp (hall p hp)
    have hmem : t ∈ (df.map (·.total)).filterMap id :=
      List.mem_filterMap.mpr ⟨p.total, List.mem_map.mpr ⟨p, hp, rfl⟩, ht⟩
    rw [hcg, seriesMean]
    rw [if_neg (by simpa [List.isEmpty_iff] using List.ne_nil_of_mem hmem)]
    rfl
  · intro hlen10
    have htake : (insSort totalGeB df.enum).take 10 = insSort totalGeB df.enum :=
      List.take_of_length_le (by omega)
    have hTall : (top10_resto df).1 = insSort totalGeB df.enum := hT.trans htake
    have hresto : (top10_resto df).2 = [] := by
      rw [hR]
      apply List.filter_eq_nil_iff.mpr
      intro ip hip
      have hin : ip ∈ (top10_resto df).1 := by
        rw [hTall]
        exact (insSort_perm totalGeB df.enum).mem_iff.mpr hip
      have hfst : ip.1 ∈ (top10_resto df).1.map (·.1) :=
        List.mem_map.mpr ⟨ip, hin, rfl⟩
      rw [contains_eq_decide_mem]
      simp [hfst]
    have hcr : (cmpMedias df).2.1
        = if (top10_resto df).2.isEmpty then none
          else seriesMean ((top10_resto df).2.map (·.2.total)) := rfl
    have hnone : (cmpMedias df).2.1 = none := by
      rw [hcr, hresto]
      rfl
    exact ⟨hresto, hnone, by rw [hnone]; simp⟩

/-- C3 witness: the five-row subset `df5` — fewer than 10 rows — has an
empty `resto` group whose mean is the not-available marker, not zero. -/
theorem top_rest_partition_sentinel_witness :
    df5 ≠ [] ∧ df5.length ≤ 10 ∧ (∀ p ∈ df5, p.total.isSome) ∧
    (top10_resto df5).2 = [] ∧ (cmpMedias df5).2.1 = none ∧
    (cmpMedias df5).2.1 ≠ some 0 :=
  ⟨by decide, by decide, by decide,
   ((top_rest_partition_sentinel df5 (by decide) (by decide)).2.2.2
     (by decide)).1,
   ((top_rest_partition_sentinel df5 (by decide) (by decide)).2.2.2
     (by decide)).2.1,
   ((top_rest_partition_sentinel df5 (by decide) (by decide)).2.2.2
     (by decide)).2.2⟩

/-! Claim C8: the category-tag explode-and-count table. -/

/-- C8 counterexample: the pipeline does not drop empty fragments — a record
whose `Tipo` cell is the empty string contributes the empty-string label to
the count table instead of contributing nothing. -/
theorem conteo_claim_fails :
    conteo_tipos [cTipoVacio] = [("", 1)] ∧
    conteo_tipos [cTipoVacio] ≠ [] := by decide

/-- C8 (amended): the explode-and-count table splits each present tag on
"/", trims whitespace from every fragment, drops missing tags (a missing
`Tipo` contributes zero labels) while keeping empty fragments as
empty-string labels, pairs each distinct label of the exploded series with
its occurrence count, is sorted by count descending, and on the example
table ("Fire/Flying", "Fire", missing) yields Fire ↦ 2, Flying ↦ 1. -/
theorem conteo_amended :
    (∀ (r : Pokemon) (df : List Pokemon), r.tipo = none →
        tipos_series (r :: df) = tipos_series df) ∧
    (∀ df : List Pokemon,
        (conteo_tipos df).Pairwise (fun a b => b.2 ≤ a.2)) ∧
    (∀ (df : List Pokemon) (l : String) (c : Nat), (l, c) ∈ conteo_tipos df →
        c = (tipos_series df).count l ∧ l ∈ tipos_series df) ∧
    (∀ (df : List Pokemon) (l : String), l ∈ tipos_series df →
        (l, (tipos_series df).count l) ∈ conteo_tipos df) ∧
    conteo_tipos dfC8 = [("Fire", 2), ("Flying", 1)] := by
  refine ⟨?_, ?_, ?_, ?_, by decide⟩
  · intro r df h
    simp [tipos_series, List.filterMap_cons, h]
  · intro df
    have h := @pairwise_insSort (String × Nat)
      (fun a b => decide (b.2 ≤ a.2))
      (fun a b c h1 h2 => by
        simp only [decide_eq_true_eq] at h1 h2 ⊢
        omega)
      (fun a b => by
        by_cases h : b.2 ≤ a.2
        · exact Or.inl (by simpa using h)
        · exact Or.inr (by simp; omega))
      ((tipos_series df).dedup.map
        (fun l => (l, (tipos_series df).count l)))
    rw [conteo_tipos]
    exact h.imp (fun hxy => of_decide_eq_true hxy)
  · intro df l c hlc
    rw [conteo_tipos] at hlc
    have h1 := (insSort_perm _ _).mem_iff.mp hlc
    obtain ⟨l', hl', heq⟩ := List.mem_map.mp h1
    have h2 : l' = l ∧ (tipos_series df).count l' = c :=
      ⟨congrArg Prod.fst heq, congrArg Prod.snd heq⟩
    obtain ⟨rfl, hc⟩ := h2
    exact ⟨hc.symm, List.mem_dedup.mp hl'⟩
  · intro df l hl
    rw [conteo_tipos]
    apply (insSort_perm _ _).mem_iff.mpr
    exact List.mem_map.mpr ⟨l, List.mem_dedup.mpr hl, rfl⟩

/-- C8 witness: a missing-tag row contributes nothing to the exploded
series, and the count of "Fire" recorded in the table for the example data
is its occurrence count. -/
theorem conteo_amended_witness :
    tipos_series (cNoTipo :: [cFire]) = tipos_series [cFire] ∧
    (2 = (tipos_series dfC8).count "Fire" ∧ "Fire" ∈ tipos_series dfC8) :=
  ⟨conteo_amended.1 cNoTipo [cFire] rfl,
   conteo_amended.2.2.1 dfC8 "Fire" 2 (by decide)⟩

end Pokedex

